import Mathlib

/-!
Shallow embedding of the reindex-scheduler script and the database seeding
logic of the repository, together with proofs of the specified properties.

Timestamps are modelled as integers (milliseconds since the Unix epoch,
exactly the value of `Date.prototype.getTime`).  `Date.prototype.toISOString`
is an injective, order-preserving rendering of that integer; we model it by
the decimal rendering of the integer, which has the same two properties.
-/

namespace Reindex

/-- Milliseconds per minute; `setUTCMinutes(getUTCMinutes() + k)` adds exactly
`k * 60000` milliseconds to the epoch time. -/
def msPerMinute : Int := 60000

/-- Model of `new Date(new Date(d).setUTCMinutes(d.getUTCMinutes() + k))` from the script:
adding `k` minutes to an epoch-millisecond timestamp. -/
def addUTCMinutes (d k : Int) : Int := d + k * msPerMinute

/-- Model of `Date.prototype.toISOString`: an injective rendering of the
epoch-millisecond timestamp. -/
def toISOString (t : Int) : String := toString t

/-- The two search operators used by the script (`@medplum/core` `Operator`). -/
inductive Operator where
  | GREATER_THAN_OR_EQUALS
  | LESS_THAN
deriving DecidableEq, Repr

/-- A `Filter` triple as pushed onto `searchRequest.filters`; the `value`
field holds the timestamp whose ISO rendering the script stores. -/
structure Filter where
  code : String
  operator : Operator
  value : Int
deriving DecidableEq, Repr

/-- The `SearchRequest` the script builds; `resourceType` is
`resourceTypes[0]`, which in TypeScript is `undefined` on an empty array,
hence `Option`. -/
structure SearchRequest where
  resourceType : Option String
  filters : List Filter
deriving DecidableEq, Repr

/-- The `searchRequest` construction of one loop iteration (script lines 45-63):
`resourceType` is `resourceTypes[0]`; a `ge` filter is pushed only when
`startDate` is defined, a `lt` filter only when `endDate` is defined. -/
def buildSearchRequest (resourceTypes : List String) (startDate endDate : Option Int) :
    SearchRequest :=
  { resourceType := resourceTypes[0]?
  , filters :=
      (match startDate with
       | some s => [⟨"_lastUpdated", Operator.GREATER_THAN_OR_EQUALS, s⟩]
       | none => []) ++
      (match endDate with
       | some e => [⟨"_lastUpdated", Operator.LESS_THAN, e⟩]
       | none => []) }

/-- The `urlQueryParts` of one loop iteration. -/
def urlQueryParts (startDate endDate : Option Int) : List String :=
  (match startDate with
   | some s => ["_lastUpdated=ge" ++ toISOString s]
   | none => []) ++
  (match endDate with
   | some e => ["_lastUpdated=lt" ++ toISOString e]
   | none => [])

/-- The url built each iteration: `resourceTypes.join(',') + '?' + urlQueryParts.join('&')`. -/
def buildUrl (resourceTypes : List String) (startDate endDate : Option Int) : String :=
  String.intercalate "," resourceTypes ++ "?" ++
    String.intercalate "&" (urlQueryParts startDate endDate)

/-- Everything one iteration of the do-while loop computes: the values of the
loop variables `startDate`/`endDate` during that iteration, the
`searchRequest` and the logged `url`. -/
structure Iteration where
  startDate : Option Int
  endDate : Option Int
  searchRequest : SearchRequest
  url : String
deriving DecidableEq, Repr

/-- Computation `endDate = min(startDate + intervalMinutes, beforeDate)` (script lines
46-48). -/
def computeEndDate (beforeDate intervalMinutes s : Int) : Int :=
  min (addUTCMinutes s intervalMinutes) beforeDate

/-- The iteration record produced when `startDate` is the defined value `s`. -/
def mkIteration (resourceTypes : List String) (beforeDate intervalMinutes s : Int) :
    Iteration :=
  let e := computeEndDate beforeDate intervalMinutes s
  ⟨some s, some e, buildSearchRequest resourceTypes (some s) (some e),
    buildUrl resourceTypes (some s) (some e)⟩

/-- The do-while loop of `main` (script lines 44-79), fuel-indexed.  The loop
body always runs once; `endDate` is recomputed only when `startDate` is
defined (otherwise it keeps its previous value, threaded as `endPrev`); the
loop repeats while the new `startDate := endDate` is defined and
`< beforeDate`.  `Except.error its` returns the iterations performed so far
when the fuel runs out with the loop still running (the loop itself never
raises an error). -/
def mainLoop (resourceTypes : List String) (beforeDate intervalMinutes : Int) :
    Nat → Option Int → Option Int → Except (List Iteration) (List Iteration)
  | 0, _, _ => .error []
  | fuel + 1, ostart, endPrev =>
    let oend : Option Int :=
      match ostart with
      | some s => some (computeEndDate beforeDate intervalMinutes s)
      | none => endPrev
    let it : Iteration :=
      ⟨ostart, oend, buildSearchRequest resourceTypes ostart oend,
        buildUrl resourceTypes ostart oend⟩
    match oend with
    | some e =>
      if e < beforeDate then
        match mainLoop resourceTypes beforeDate intervalMinutes fuel (some e) (some e) with
        | .ok its => .ok (it :: its)
        | .error its => .error (it :: its)
      else .ok [it]
    | none => .ok [it]

/-- Observable external effects of `main` on the queue, the Async Job store
and the reindex queue (in program order).  `queueClean`/`queueDrain`/
`queueObliterate` model `queue.clean(0,0,'active')`, `queue.drain(true)` and
`queue.obliterate()`; `queueResume` models `queue.resume()`;
`createAsyncJob` models `exec.init(url)` (creates the Async Job record);
`enqueueReindexJob` models `addReindexJob(resourceTypes, asyncJob,
searchRequest, maxResourceVersion)`. -/
inductive Effect where
  | queueClean
  | queueDrain
  | queueObliterate
  | queueResume
  | createAsyncJob (url : String)
  | enqueueReindexJob (resourceTypes : List String) (searchRequest : SearchRequest)
      (maxResourceVersion : Nat)
deriving DecidableEq, Repr

/-- stdout lines of one iteration: `console.log(url)` always; the
`Added job ...` line only when `DO_ADD_JOBS` is set. -/
def iterStdout (doAddJobs : Bool) (it : Iteration) : List String :=
  it.url :: (if doAddJobs then ["Added job"] else [])

/-- External effects of one iteration: when `DO_ADD_JOBS` is set, the Async
Job is created (`exec.init(url)`) and the reindex job referencing it is
enqueued; otherwise nothing. -/
def iterEffects (doAddJobs : Bool) (resourceTypes : List String) (maxResourceVersion : Nat)
    (it : Iteration) : List Effect :=
  if doAddJobs then
    [Effect.createAsyncJob it.url,
     Effect.enqueueReindexJob resourceTypes it.searchRequest maxResourceVersion]
  else []

/-- Model of `console.log(resourceTypes)`: the console rendering of the parsed
resource-type array, modelled up to an injective rendering. -/
def printResourceTypes (resourceTypes : List String) : String :=
  "[" ++ String.intercalate "," resourceTypes ++ "]"

/-- Result of one execution of the body of `main`: everything printed to
stdout, the external effects in program order, the error thrown (if any),
and whether the run completed (`completed = false` means the fuel bound was
reached with the do-while loop still running, i.e. the function never
returns). -/
structure RunResult where
  stdout : List String
  effects : List Effect
  error : Option String
  completed : Bool
deriving DecidableEq, Repr

/-- The body of `main` (script lines 15-80).  `hasQueue` is whether
`queueRegistry.get('ReindexQueue')` finds the queue; `doObliterate` and
`doAddJobs` are the `DO_OBLITERATE` and `DO_ADD_JOBS` source constants
(both `false` in the source); `startDate0` is the initial `startDate`
(declared `Date | undefined`); `beforeDate` and `intervalMinutes` are the
horizon constants.  Config loading and `initAppServices` are external
collaborators with no modelled effect on the queue or job store. -/
def mainRun (hasQueue doObliterate doAddJobs : Bool) (resourceTypes : List String)
    (startDate0 : Option Int) (beforeDate intervalMinutes : Int)
    (maxResourceVersion : Nat) (fuel : Nat) : RunResult :=
  let log0 := [printResourceTypes resourceTypes]
  if hasQueue = false then
    { stdout := log0, effects := [], error := some "Could not find queue", completed := true }
  else
    let setupOut := if doObliterate then ["obliterating queue..."] else []
    let setupEff :=
      if doObliterate then [Effect.queueClean, Effect.queueDrain, Effect.queueObliterate]
      else [Effect.queueResume]
    match mainLoop resourceTypes beforeDate intervalMinutes fuel startDate0 none with
    | .ok its =>
      { stdout := log0 ++ setupOut ++ its.flatMap (iterStdout doAddJobs)
      , effects := setupEff ++ its.flatMap (iterEffects doAddJobs resourceTypes maxResourceVersion)
      , error := none
      , completed := true }
    | .error its =>
      { stdout := log0 ++ setupOut ++ its.flatMap (iterStdout doAddJobs)
      , effects := setupEff ++ its.flatMap (iterEffects doAddJobs resourceTypes maxResourceVersion)
      , error := none
      , completed := false }

/-- What the operating system observes from the whole process. -/
structure ProcessResult where
  exitCode : Nat
  stdout : List String
  stderr : List String
deriving DecidableEq, Repr

/-- Result of `JSON.stringify(err, null, 2)` on an `Error`: `message` and `stack` are
non-enumerable, so the result is the empty object. -/
def errJson (_msg : String) : String := "\x7b\x7d"

/-- The whole process (script lines 82-87):
`main().then(() => console.log('Done')).catch(err => { console.error(err);
console.error(JSON.stringify(err, null, 2)); })`.  The catch handler logs
the error and swallows it without setting `process.exitCode`, so Node exits
with status 0 on both paths.  `none` models a process that never exits
(`main` diverging). -/
def runProcess (hasQueue doObliterate doAddJobs : Bool) (resourceTypes : List String)
    (startDate0 : Option Int) (beforeDate intervalMinutes : Int)
    (maxResourceVersion : Nat) (fuel : Nat) : Option ProcessResult :=
  let r := mainRun hasQueue doObliterate doAddJobs resourceTypes startDate0 beforeDate
    intervalMinutes maxResourceVersion fuel
  if r.completed then
    some (match r.error with
      | some e =>
        { exitCode := 0, stdout := r.stdout, stderr := [e, errJson e] }
      | none =>
        { exitCode := 0, stdout := r.stdout ++ ["Done"], stderr := [] })
  else none

@[simp] theorem mkIteration_startDate (rts : List String) (b i s : Int) :
    (mkIteration rts b i s).startDate = some s := rfl

@[simp] theorem mkIteration_endDate (rts : List String) (b i s : Int) :
    (mkIteration rts b i s).endDate = some (computeEndDate b i s) := rfl

@[simp] theorem mkIteration_searchRequest (rts : List String) (b i s : Int) :
    (mkIteration rts b i s).searchRequest =
      buildSearchRequest rts (some s) (some (computeEndDate b i s)) := rfl

@[simp] theorem mkIteration_url (rts : List String) (b i s : Int) :
    (mkIteration rts b i s).url = buildUrl rts (some s) (some (computeEndDate b i s)) := rfl

/-- The shape of the iteration list produced by the loop when started at the
defined value `s`: the head records exactly the iteration the body computes
for `s`, and the tail continues from the computed `endDate` exactly when
that `endDate` is still `< beforeDate`. -/
def goodChain (rts : List String) (beforeDate intervalMinutes : Int) :
    Int → List Iteration → Prop
  | _, [] => False
  | s, it :: rest =>
    it = mkIteration rts beforeDate intervalMinutes s ∧
    if computeEndDate beforeDate intervalMinutes s < beforeDate
    then goodChain rts beforeDate intervalMinutes (computeEndDate beforeDate intervalMinutes s) rest
    else rest = []

theorem lt_computeEndDate {beforeDate intervalMinutes s : Int}
    (hstep : 1 ≤ intervalMinutes) (hs : s < beforeDate) :
    s < computeEndDate beforeDate intervalMinutes s := by
  simp only [computeEndDate, addUTCMinutes, msPerMinute]
  omega

theorem computeEndDate_le (beforeDate intervalMinutes s : Int) :
    computeEndDate beforeDate intervalMinutes s ≤ beforeDate := by
  simp only [computeEndDate, addUTCMinutes, msPerMinute]
  omega

/-- Unfolding of one loop step at a defined `startDate`. -/
theorem mainLoop_some_succ (rts : List String) (b i : Int) (fuel : Nat) (s : Int)
    (p : Option Int) :
    mainLoop rts b i (fuel + 1) (some s) p =
      (if computeEndDate b i s < b then
        (match mainLoop rts b i fuel (some (computeEndDate b i s))
            (some (computeEndDate b i s)) with
         | .ok its => .ok (mkIteration rts b i s :: its)
         | .error its => .error (mkIteration rts b i s :: its))
       else .ok [mkIteration rts b i s]) := rfl

/-- Unfolding of the loop at an undefined `startDate` (the carried `endDate`
still being undefined): a single iteration with both bounds absent. -/
theorem mainLoop_none_none (rts : List String) (b i : Int) (fuel : Nat) :
    mainLoop rts b i (fuel + 1) none none =
      .ok [⟨none, none, buildSearchRequest rts none none, buildUrl rts none none⟩] := rfl

/-- With enough fuel, the loop started at a defined `startDate` below the
horizon terminates and its iteration list satisfies `goodChain`. -/
theorem mainLoop_ok (rts : List String) (beforeDate intervalMinutes : Int)
    (hstep : 1 ≤ intervalMinutes) :
    ∀ (fuel : Nat) (s : Int), s < beforeDate → (beforeDate - s).toNat ≤ fuel →
    ∀ p, ∃ its, mainLoop rts beforeDate intervalMinutes fuel (some s) p = .ok its ∧
      goodChain rts beforeDate intervalMinutes s its := by
  intro fuel
  induction fuel with
  | zero => intro s hs hf _; omega
  | succ n ih =>
    intro s hs hf p
    by_cases h : computeEndDate beforeDate intervalMinutes s < beforeDate
    · have hf' : (beforeDate - computeEndDate beforeDate intervalMinutes s).toNat ≤ n := by
        have he : computeEndDate beforeDate intervalMinutes s = s + intervalMinutes * 60000 := by
          simp only [computeEndDate, addUTCMinutes, msPerMinute] at h ⊢
          omega
        omega
      obtain ⟨its, hits, hchain⟩ :=
        ih (computeEndDate beforeDate intervalMinutes s) h hf'
          (some (computeEndDate beforeDate intervalMinutes s))
      refine ⟨mkIteration rts beforeDate intervalMinutes s :: its, ?_, ?_⟩
      · rw [mainLoop_some_succ, if_pos h, hits]
      · exact ⟨rfl, by rw [if_pos h]; exact hchain⟩
    · refine ⟨[mkIteration rts beforeDate intervalMinutes s], ?_, rfl, by rw [if_neg h]⟩
      rw [mainLoop_some_succ, if_neg h]

/-- Every iteration in a chain starting at `s` is the body's output for some
`startDate` value `a` with `s ≤ a < beforeDate`. -/
theorem goodChain_mem {rts : List String} {beforeDate intervalMinutes : Int}
    (hstep : 1 ≤ intervalMinutes) :
    ∀ {its : List Iteration} {s : Int}, goodChain rts beforeDate intervalMinutes s its →
    s < beforeDate →
    ∀ it ∈ its, ∃ a, it = mkIteration rts beforeDate intervalMinutes a ∧
      s ≤ a ∧ a < beforeDate := by
  intro its
  induction its with
  | nil => intro s h; exact h.elim
  | cons hd tl ih =>
    intro s h hs it hit
    obtain ⟨hhd, hrest⟩ := h
    rcases List.mem_cons.mp hit with rfl | hmem
    · exact ⟨s, hhd, le_refl s, hs⟩
    · by_cases hcond : computeEndDate beforeDate intervalMinutes s < beforeDate
      · rw [if_pos hcond] at hrest
        obtain ⟨a, ha, hsa, hab⟩ := ih hrest hcond it hmem
        exact ⟨a, ha, le_trans (le_of_lt (lt_computeEndDate hstep hs)) hsa, hab⟩
      · rw [if_neg hcond] at hrest
        subst hrest
        cases hmem

/-- Consecutive iterations are contiguous: each `endDate` is the next
iteration's `startDate`. -/
theorem goodChain_contiguous {rts : List String} {beforeDate intervalMinutes : Int} :
    ∀ {its : List Iteration} {s : Int}, goodChain rts beforeDate intervalMinutes s its →
    List.Chain' (fun x y => x.endDate = y.startDate) its := by
  intro its
  induction its with
  | nil => intro s h; exact h.elim
  | cons hd tl ih =>
    intro s h
    obtain ⟨hhd, hrest⟩ := h
    by_cases hcond : computeEndDate beforeDate intervalMinutes s < beforeDate
    · rw [if_pos hcond] at hrest
      rw [List.chain'_cons']
      refine ⟨?_, ih hrest⟩
      intro y hy
      cases tl with
      | nil => exact hrest.elim
      | cons y0 tl0 =>
        obtain rfl : y0 = y := by simpa using hy
        rw [hhd, hrest.1]
        simp
    · rw [if_neg hcond] at hrest
      subst hrest
      exact List.chain'_singleton hd

/-- The last iteration's `endDate` is the horizon `beforeDate`. -/
theorem goodChain_lastEnd {rts : List String} {beforeDate intervalMinutes : Int} :
    ∀ {its : List Iteration} {s : Int}, goodChain rts beforeDate intervalMinutes s its →
    (its.getLast?).bind Iteration.endDate = some beforeDate := by
  intro its
  induction its with
  | nil => intro s h; exact h.elim
  | cons hd tl ih =>
    intro s h
    obtain ⟨hhd, hrest⟩ := h
    by_cases hcond : computeEndDate beforeDate intervalMinutes s < beforeDate
    · rw [if_pos hcond] at hrest
      cases tl with
      | nil => exact hrest.elim
      | cons y0 tl0 =>
        rw [List.getLast?_cons_cons]
        exact ih hrest
    · rw [if_neg hcond] at hrest
      subst hrest
      have hle := computeEndDate_le beforeDate intervalMinutes s
      have : computeEndDate beforeDate intervalMinutes s = beforeDate := by omega
      simp [hhd, this]

/-- Every iteration except the last has `endDate < beforeDate` — the loop
stops exactly when a produced `endDate` reaches the horizon. -/
theorem goodChain_dropLast {rts : List String} {beforeDate intervalMinutes : Int} :
    ∀ {its : List Iteration} {s : Int}, goodChain rts beforeDate intervalMinutes s its →
    ∀ it ∈ its.dropLast, ∃ e, it.endDate = some e ∧ e < beforeDate := by
  intro its
  induction its with
  | nil => intro s h; exact h.elim
  | cons hd tl ih =>
    intro s h it hit
    obtain ⟨hhd, hrest⟩ := h
    cases tl with
    | nil => simp at hit
    | cons y0 tl0 =>
      by_cases hcond : computeEndDate beforeDate intervalMinutes s < beforeDate
      · rw [if_pos hcond] at hrest
        rw [List.dropLast_cons₂] at hit
        rcases List.mem_cons.mp hit with rfl | hmem
        · exact ⟨computeEndDate beforeDate intervalMinutes s, by simp [hhd], hcond⟩
        · exact ih hrest it hmem
      · rw [if_neg hcond] at hrest
        cases hrest

/-- The sequence of defined `startDate`s is strictly increasing. -/
theorem goodChain_starts {rts : List String} {beforeDate intervalMinutes : Int}
    (hstep : 1 ≤ intervalMinutes) :
    ∀ {its : List Iteration} {s : Int}, goodChain rts beforeDate intervalMinutes s its →
    s < beforeDate →
    List.Chain' (· < ·) (its.filterMap Iteration.startDate) := by
  intro its
  induction its with
  | nil => intro s h; exact h.elim
  | cons hd tl ih =>
    intro s h hs
    obtain ⟨hhd, hrest⟩ := h
    by_cases hcond : computeEndDate beforeDate intervalMinutes s < beforeDate
    · rw [if_pos hcond] at hrest
      have htl := ih hrest hcond
      rw [List.filterMap_cons, hhd]
      simp only [mkIteration_startDate]
      rw [List.chain'_cons']
      refine ⟨?_, htl⟩
      intro y hy
      cases tl with
      | nil => exact hrest.elim
      | cons y0 tl0 =>
        rw [hrest.1, List.filterMap_cons] at hy
        simp only [mkIteration_startDate] at hy
        obtain rfl : computeEndDate beforeDate intervalMinutes s = y := by simpa using hy
        exact lt_computeEndDate hstep hs
    · rw [if_neg hcond] at hrest
      subst hrest
      rw [hhd, List.filterMap_cons]
      simp only [mkIteration_startDate]
      exact List.chain'_singleton s

/-- Distinct iterations do not overlap: an earlier iteration's window ends at
or before a later one's begins. -/
theorem goodChain_pairwise {rts : List String} {beforeDate intervalMinutes : Int}
    (hstep : 1 ≤ intervalMinutes) :
    ∀ {its : List Iteration} {s : Int}, goodChain rts beforeDate intervalMinutes s its →
    s < beforeDate →
    List.Pairwise
      (fun x y => ∀ ex sy, x.endDate = some ex → y.startDate = some sy → ex ≤ sy) its := by
  intro its
  induction its with
  | nil => intro s h; exact h.elim
  | cons hd tl ih =>
    intro s h hs
    obtain ⟨hhd, hrest⟩ := h
    by_cases hcond : computeEndDate beforeDate intervalMinutes s < beforeDate
    · rw [if_pos hcond] at hrest
      refine List.Pairwise.cons ?_ (ih hrest hcond)
      intro y hy ex sy hex hsy
      obtain ⟨a, ha, haL, _⟩ := goodChain_mem hstep hrest hcond y hy
      rw [hhd] at hex
      simp only [mkIteration_endDate, Option.some.injEq] at hex
      rw [ha] at hsy
      simp only [mkIteration_startDate, Option.some.injEq] at hsy
      omega
    · rw [if_neg hcond] at hrest
      subst hrest
      simp

/-- Forward coverage: every instant in `[s, beforeDate)` lies in some
produced window. -/
theorem goodChain_cover {rts : List String} {beforeDate intervalMinutes : Int} :
    ∀ {its : List Iteration} {s : Int}, goodChain rts beforeDate intervalMinutes s its →
    s < beforeDate →
    ∀ t, s ≤ t → t < beforeDate →
    ∃ it ∈ its, ∃ a e, it.startDate = some a ∧ it.endDate = some e ∧ a ≤ t ∧ t < e := by
  intro its
  induction its with
  | nil => intro s h; exact h.elim
  | cons hd tl ih =>
    intro s h hs t hst htb
    obtain ⟨hhd, hrest⟩ := h
    by_cases ht : t < computeEndDate beforeDate intervalMinutes s
    · exact ⟨hd, List.mem_cons_self hd tl,
        s, computeEndDate beforeDate intervalMinutes s,
        by simp [hhd], by simp [hhd], hst, ht⟩
    · have hcond : computeEndDate beforeDate intervalMinutes s < beforeDate := by omega
      rw [if_pos hcond] at hrest
      obtain ⟨it, hmem, rest⟩ := ih hrest hcond t (by omega) htb
      exact ⟨it, List.mem_cons_of_mem hd hmem, rest⟩

/-- C1: for every `overallStart < overallEnd` (here `s < beforeDate`) and positive
`stepMinutes` (here `intervalMinutes`), the partition loop produces windows in
ascending chronological order starting at `overallStart`, contiguous (each window's
`endDate` equals the next window's `startDate`), non-overlapping, covering exactly
`[overallStart, overallEnd)`, with each window's `endDate` equal to
`min(startDate + stepMinutes, overallEnd)` and the last window's `endDate` equal to
`overallEnd`. -/
theorem C1_partition_windows (rts : List String) (beforeDate intervalMinutes s : Int)
    (fuel : Nat) (p : Option Int)
    (hstep : 1 ≤ intervalMinutes) (hs : s < beforeDate)
    (hfuel : (beforeDate - s).toNat ≤ fuel) :
    ∃ its, mainLoop rts beforeDate intervalMinutes fuel (some s) p = .ok its ∧
      its ≠ [] ∧
      (∃ it0 rest, its = it0 :: rest ∧ it0.startDate = some s) ∧
      List.Chain' (· < ·) (its.filterMap Iteration.startDate) ∧
      List.Chain' (fun x y => x.endDate = y.startDate) its ∧
      List.Pairwise
        (fun x y => ∀ ex sy, x.endDate = some ex → y.startDate = some sy → ex ≤ sy) its ∧
      (∀ it ∈ its, ∃ a, it.startDate = some a ∧
        it.endDate = some (min (addUTCMinutes a intervalMinutes) beforeDate) ∧
        a < min (addUTCMinutes a intervalMinutes) beforeDate) ∧
      (∀ t, (s ≤ t ∧ t < beforeDate) ↔
        (∃ it ∈ its, ∃ a e, it.startDate = some a ∧ it.endDate = some e ∧ a ≤ t ∧ t < e)) ∧
      (its.getLast?).bind Iteration.endDate = some beforeDate := by
  obtain ⟨its, hrun, hchain⟩ :=
    mainLoop_ok rts beforeDate intervalMinutes hstep fuel s hs hfuel p
  refine ⟨its, hrun, ?_, ?_, goodChain_starts hstep hchain hs, goodChain_contiguous hchain,
    goodChain_pairwise hstep hchain hs, ?_, ?_, goodChain_lastEnd hchain⟩
  · cases its with
    | nil => exact hchain.elim
    | cons hd tl => simp
  · cases its with
    | nil => exact hchain.elim
    | cons hd tl => exact ⟨hd, tl, rfl, by rw [hchain.1]; simp⟩
  · intro it hit
    obtain ⟨a, ha, _, hab⟩ := goodChain_mem hstep hchain hs it hit
    refine ⟨a, by simp [ha], by simp [ha, computeEndDate], ?_⟩
    have := lt_computeEndDate hstep hab
    simpa [computeEndDate] using this
  · intro t
    constructor
    · rintro ⟨h1, h2⟩
      exact goodChain_cover hchain hs t h1 h2
    · rintro ⟨it, hit, a, e, hsa, hse, hat, hte⟩
      obtain ⟨a', ha', hsa', hab'⟩ := goodChain_mem hstep hchain hs it hit
      rw [ha'] at hsa hse
      simp only [mkIteration_startDate, Option.some.injEq] at hsa
      simp only [mkIteration_endDate, Option.some.injEq] at hse
      have hle := computeEndDate_le beforeDate intervalMinutes a'
      omega

/-- Witness for C1 at `overallStart = 0`, `overallEnd = 150000` ms and
`stepMinutes = 1` (three windows `[0,60000)`, `[60000,120000)`,
`[120000,150000)`). -/
theorem C1_partition_windows_witness :
    (1 : Int) ≤ 1 ∧ (0 : Int) < 150000 ∧ ((150000 : Int) - 0).toNat ≤ 150000 ∧
    (∃ its, mainLoop ["Patient"] 150000 1 150000 (some 0) none = .ok its ∧
      its ≠ [] ∧
      (∃ it0 rest, its = it0 :: rest ∧ it0.startDate = some 0) ∧
      List.Chain' (· < ·) (its.filterMap Iteration.startDate) ∧
      List.Chain' (fun x y => x.endDate = y.startDate) its ∧
      List.Pairwise
        (fun x y => ∀ ex sy, x.endDate = some ex → y.startDate = some sy → ex ≤ sy) its ∧
      (∀ it ∈ its, ∃ a, it.startDate = some a ∧
        it.endDate = some (min (addUTCMinutes a 1) 150000) ∧
        a < min (addUTCMinutes a 1) 150000) ∧
      (∀ t, ((0 : Int) ≤ t ∧ t < 150000) ↔
        (∃ it ∈ its, ∃ a e, it.startDate = some a ∧ it.endDate = some e ∧ a ≤ t ∧ t < e)) ∧
      (its.getLast?).bind Iteration.endDate = some 150000) :=
  ⟨by decide, by decide, by decide,
    C1_partition_windows ["Patient"] 150000 1 0 150000 none (by decide) (by decide) (by decide)⟩

/-- C6: for every positive `stepMinutes` and `overallStart < overallEnd`, the
window-producing loop terminates — with fuel `overallEnd - overallStart` it
returns `Except.ok` with finitely many windows — and it stops once a produced
window's `endDate` equals `overallEnd`: every non-final window's `endDate` is
strictly below the horizon and the final window's `endDate` equals it. -/
theorem C6_loop_terminates (rts : List String) (beforeDate intervalMinutes s : Int)
    (fuel : Nat) (p : Option Int)
    (hstep : 1 ≤ intervalMinutes) (hs : s < beforeDate)
    (hfuel : (beforeDate - s).toNat ≤ fuel) :
    ∃ its, mainLoop rts beforeDate intervalMinutes fuel (some s) p = .ok its ∧
      its ≠ [] ∧
      (∀ it ∈ its.dropLast, ∃ e, it.endDate = some e ∧ e < beforeDate) ∧
      (its.getLast?).bind Iteration.endDate = some beforeDate := by
  obtain ⟨its, hrun, hchain⟩ :=
    mainLoop_ok rts beforeDate intervalMinutes hstep fuel s hs hfuel p
  refine ⟨its, hrun, ?_, goodChain_dropLast hchain, goodChain_lastEnd hchain⟩
  cases its with
  | nil => exact hchain.elim
  | cons hd tl => simp

/-- Witness for C6 at `overallStart = 0`, `overallEnd = 150000` ms,
`stepMinutes = 1`. -/
theorem C6_loop_terminates_witness :
    (1 : Int) ≤ 1 ∧ (0 : Int) < 150000 ∧ ((150000 : Int) - 0).toNat ≤ 150000 ∧
    (∃ its, mainLoop ["Patient"] 150000 1 150000 (some 0) none = .ok its ∧
      its ≠ [] ∧
      (∀ it ∈ its.dropLast, ∃ e, it.endDate = some e ∧ e < 150000) ∧
      (its.getLast?).bind Iteration.endDate = some 150000) :=
  ⟨by decide, by decide, by decide,
    C6_loop_terminates ["Patient"] 150000 1 0 150000 none (by decide) (by decide) (by decide)⟩

theorem iterEffects_true (rts : List String) (m : Nat) :
    iterEffects true rts m = fun it =>
      [Effect.createAsyncJob it.url, Effect.enqueueReindexJob rts it.searchRequest m] := by
  funext it
  simp [iterEffects]

theorem iterEffects_false (rts : List String) (m : Nat) :
    iterEffects false rts m = fun _ => [] := by
  funext it
  simp [iterEffects]

theorem iterStdout_false : iterStdout false = fun it => [it.url] := by
  funext it
  simp [iterStdout]

/-- C7: every produced window's date filter is
`_lastUpdated ≥ window.start AND _lastUpdated < window.end`; when the overall
start is unspecified the lower bound is omitted (and, the loop then never
defining an `endDate`, the upper bound is omitted as well, the single window
being fully open-ended). -/
theorem C7_date_filters (rts : List String) (beforeDate intervalMinutes s : Int)
    (fuel : Nat) (p : Option Int)
    (hstep : 1 ≤ intervalMinutes) (hs : s < beforeDate)
    (hfuel : (beforeDate - s).toNat ≤ fuel) :
    (∃ its, mainLoop rts beforeDate intervalMinutes fuel (some s) p = .ok its ∧
      ∀ it ∈ its, ∃ a e, it.startDate = some a ∧ it.endDate = some e ∧
        it.searchRequest.filters =
          [⟨"_lastUpdated", Operator.GREATER_THAN_OR_EQUALS, a⟩,
           ⟨"_lastUpdated", Operator.LESS_THAN, e⟩]) ∧
    (∀ f : Nat, ∃ it, mainLoop rts beforeDate intervalMinutes (f + 1) none none = .ok [it] ∧
      it.startDate = none ∧ it.endDate = none ∧ it.searchRequest.filters = []) := by
  constructor
  · obtain ⟨its, hrun, hchain⟩ :=
      mainLoop_ok rts beforeDate intervalMinutes hstep fuel s hs hfuel p
    refine ⟨its, hrun, ?_⟩
    intro it hit
    obtain ⟨a, ha, _, _⟩ := goodChain_mem hstep hchain hs it hit
    exact ⟨a, computeEndDate beforeDate intervalMinutes a, by simp [ha], by simp [ha],
      by simp [ha, buildSearchRequest]⟩
  · intro f
    exact ⟨_, mainLoop_none_none rts beforeDate intervalMinutes f, rfl, rfl, rfl⟩

/-- Witness for C7 at `overallStart = 0` (also exercising the unspecified
start), `overallEnd = 150000` ms, `stepMinutes = 1`. -/
theorem C7_date_filters_witness :
    (1 : Int) ≤ 1 ∧ (0 : Int) < 150000 ∧ ((150000 : Int) - 0).toNat ≤ 150000 ∧
    ((∃ its, mainLoop ["Patient"] 150000 1 150000 (some 0) none = .ok its ∧
      ∀ it ∈ its, ∃ a e, it.startDate = some a ∧ it.endDate = some e ∧
        it.searchRequest.filters =
          [⟨"_lastUpdated", Operator.GREATER_THAN_OR_EQUALS, a⟩,
           ⟨"_lastUpdated", Operator.LESS_THAN, e⟩]) ∧
    (∀ f : Nat, ∃ it, mainLoop ["Patient"] 150000 1 (f + 1) none none = .ok [it] ∧
      it.startDate = none ∧ it.endDate = none ∧ it.searchRequest.filters = [])) :=
  ⟨by decide, by decide, by decide,
    C7_date_filters ["Patient"] 150000 1 0 150000 none (by decide) (by decide) (by decide)⟩

/-- C8: within one submission run with the gate on, the job-creating and
enqueueing effects occur once per window in the loop's order, and the windows
have strictly increasing `startDate`s — job descriptors are enqueued in
chronological order. -/
theorem C8_chronological_enqueue (rts : List String) (beforeDate intervalMinutes s : Int)
    (maxResourceVersion : Nat) (fuel : Nat)
    (hstep : 1 ≤ intervalMinutes) (hs : s < beforeDate)
    (hfuel : (beforeDate - s).toNat ≤ fuel) :
    ∃ its, mainLoop rts beforeDate intervalMinutes fuel (some s) none = .ok its ∧
      (mainRun true false true rts (some s) beforeDate intervalMinutes
          maxResourceVersion fuel).effects =
        Effect.queueResume ::
          its.flatMap (fun it =>
            [Effect.createAsyncJob it.url,
             Effect.enqueueReindexJob rts it.searchRequest maxResourceVersion]) ∧
      List.Chain' (· < ·) (its.filterMap Iteration.startDate) := by
  obtain ⟨its, hrun, hchain⟩ :=
    mainLoop_ok rts beforeDate intervalMinutes hstep fuel s hs hfuel none
  exact ⟨its, hrun, by simp [mainRun, hrun, iterEffects_true],
    goodChain_starts hstep hchain hs⟩

/-- Witness for C8 at `overallStart = 0`, `overallEnd = 150000` ms,
`stepMinutes = 1`, `maxResourceVersion = 5`. -/
theorem C8_chronological_enqueue_witness :
    (1 : Int) ≤ 1 ∧ (0 : Int) < 150000 ∧ ((150000 : Int) - 0).toNat ≤ 150000 ∧
    (∃ its, mainLoop ["Patient"] 150000 1 150000 (some 0) none = .ok its ∧
      (mainRun true false true ["Patient"] (some 0) 150000 1 5 150000).effects =
        Effect.queueResume ::
          its.flatMap (fun it =>
            [Effect.createAsyncJob it.url,
             Effect.enqueueReindexJob ["Patient"] it.searchRequest 5]) ∧
      List.Chain' (· < ·) (its.filterMap Iteration.startDate)) :=
  ⟨by decide, by decide, by decide,
    C8_chronological_enqueue ["Patient"] 150000 1 0 5 150000 (by decide) (by decide) (by decide)⟩

/-- C9: with multiple comma-separated resource types, the search request
embedded in each submitted job carries only the first supplied type in its
`resourceType` field, while the request URL recorded on the Async Job and
the argument list of the enqueued reindex job carry all supplied types. -/
theorem C9_only_first_resource_type (r0 r1 : String) (rest : List String)
    (beforeDate intervalMinutes s : Int) (maxResourceVersion fuel : Nat)
    (hstep : 1 ≤ intervalMinutes) (hs : s < beforeDate)
    (hfuel : (beforeDate - s).toNat ≤ fuel) :
    ∃ its, mainLoop (r0 :: r1 :: rest) beforeDate intervalMinutes fuel (some s) none =
        .ok its ∧
      its ≠ [] ∧
      ∀ eff ∈ (mainRun true false true (r0 :: r1 :: rest) (some s) beforeDate
          intervalMinutes maxResourceVersion fuel).effects,
        (∀ rts' srq m, eff = Effect.enqueueReindexJob rts' srq m →
          rts' = r0 :: r1 :: rest ∧ srq.resourceType = some r0) ∧
        (∀ u, eff = Effect.createAsyncJob u →
          ∃ q, u = String.intercalate "," (r0 :: r1 :: rest) ++ "?" ++ q) := by
  obtain ⟨its, hrun, hchain⟩ :=
    mainLoop_ok (r0 :: r1 :: rest) beforeDate intervalMinutes hstep fuel s hs hfuel none
  have heff : (mainRun true false true (r0 :: r1 :: rest) (some s) beforeDate
      intervalMinutes maxResourceVersion fuel).effects =
      Effect.queueResume ::
        its.flatMap (fun it =>
          [Effect.createAsyncJob it.url,
           Effect.enqueueReindexJob (r0 :: r1 :: rest) it.searchRequest maxResourceVersion]) := by
    simp [mainRun, hrun, iterEffects_true]
  refine ⟨its, hrun, ?_, ?_⟩
  · cases its with
    | nil => exact hchain.elim
    | cons hd tl => simp
  · intro eff heffmem
    rw [heff] at heffmem
    rcases List.mem_cons.mp heffmem with rfl | hmem
    · exact ⟨fun _ _ _ h => absurd h (by simp), fun _ h => absurd h (by simp)⟩
    · rw [List.mem_flatMap] at hmem
      obtain ⟨it, hit, hin⟩ := hmem
      obtain ⟨a, ha, _, _⟩ := goodChain_mem hstep hchain hs it hit
      have hin' : eff = Effect.createAsyncJob it.url ∨
          eff = Effect.enqueueReindexJob (r0 :: r1 :: rest) it.searchRequest
            maxResourceVersion := by
        simpa using hin
      rcases hin' with rfl | rfl
      · refine ⟨fun _ _ _ h => absurd h (by simp), ?_⟩
        intro u h
        obtain rfl : it.url = u := by simpa using h
        exact ⟨String.intercalate "&"
            (urlQueryParts (some a) (some (computeEndDate beforeDate intervalMinutes a))),
          by simp [ha, buildUrl]⟩
      · refine ⟨?_, fun _ h => absurd h (by simp)⟩
        intro rts' srq m h
        obtain ⟨rfl, rfl, rfl⟩ :
            r0 :: r1 :: rest = rts' ∧ it.searchRequest = srq ∧ maxResourceVersion = m := by
          simpa using h
        exact ⟨rfl, by simp [ha, buildSearchRequest]⟩

/-- Witness for C9 with resource types `Patient,Observation`, `overallStart = 0`,
`overallEnd = 150000` ms, `stepMinutes = 1`, `maxResourceVersion = 5`. -/
theorem C9_only_first_resource_type_witness :
    (1 : Int) ≤ 1 ∧ (0 : Int) < 150000 ∧ ((150000 : Int) - 0).toNat ≤ 150000 ∧
    (∃ its, mainLoop ["Patient", "Observation"] 150000 1 150000 (some 0) none = .ok its ∧
      its ≠ [] ∧
      ∀ eff ∈ (mainRun true false true ["Patient", "Observation"] (some 0) 150000 1
          5 150000).effects,
        (∀ rts' srq m, eff = Effect.enqueueReindexJob rts' srq m →
          rts' = ["Patient", "Observation"] ∧ srq.resourceType = some "Patient") ∧
        (∀ u, eff = Effect.createAsyncJob u →
          ∃ q, u = String.intercalate "," ["Patient", "Observation"] ++ "?" ++ q)) :=
  ⟨by decide, by decide, by decide,
    C9_only_first_resource_type "Patient" "Observation" [] 150000 1 0 5 150000
      (by decide) (by decide) (by decide)⟩

theorem flatMap_singleton_url (its : List Iteration) :
    its.flatMap (fun it => [it.url]) = its.map Iteration.url := by
  induction its with
  | nil => simp
  | cons hd tl ih => simp [ih]

theorem flatMap_fun_nil (its : List Iteration) :
    its.flatMap (fun _ => ([] : List Effect)) = [] := by
  induction its with
  | nil => simp
  | cons hd tl ih => simp [ih]

/-- C3 counterexample: a dry run (`DO_ADD_JOBS = false`) with the queue
present still performs a queue mutation — `queue.resume()` runs before the
loop regardless of the gate — so its effect list is not empty as the claim
("performs no mutation of the queue") requires. -/
theorem C3_counterexample :
    (mainRun true false false ["Patient"] (some 0) 150000 1 5 3).effects =
      [Effect.queueResume] ∧
    (mainRun true false false ["Patient"] (some 0) 150000 1 5 3).effects ≠ [] := by
  decide

/-- C3 amended: with the gate off the run prints one line per computed window
and creates no Async Job and enqueues no Job Descriptor, but it still performs
the `queue.resume()` lifecycle mutation; job creation and enqueueing happen
exactly when the gate is on. -/
theorem C3_dry_run_amended (rts : List String) (startDate0 : Option Int)
    (beforeDate intervalMinutes : Int) (maxResourceVersion fuel : Nat)
    (its : List Iteration)
    (hrun : mainLoop rts beforeDate intervalMinutes fuel startDate0 none = .ok its) :
    mainRun true false false rts startDate0 beforeDate intervalMinutes
        maxResourceVersion fuel =
      { stdout := printResourceTypes rts :: its.map Iteration.url
      , effects := [Effect.queueResume]
      , error := none
      , completed := true } ∧
    (mainRun true false true rts startDate0 beforeDate intervalMinutes
        maxResourceVersion fuel).effects =
      Effect.queueResume :: its.flatMap (fun it =>
        [Effect.createAsyncJob it.url,
         Effect.enqueueReindexJob rts it.searchRequest maxResourceVersion]) := by
  constructor
  · simp [mainRun, hrun, iterEffects_false, iterStdout_false,
      flatMap_singleton_url, flatMap_fun_nil]
  · simp [mainRun, hrun, iterEffects_true]

/-- Witness for the amended C3 at `overallStart = 0`, `overallEnd = 150000` ms,
`stepMinutes = 1` (three windows). -/
theorem C3_dry_run_amended_witness :
    mainLoop ["Patient"] 150000 1 3 (some 0) none =
      .ok [mkIteration ["Patient"] 150000 1 0, mkIteration ["Patient"] 150000 1 60000,
           mkIteration ["Patient"] 150000 1 120000] ∧
    (mainRun true false false ["Patient"] (some 0) 150000 1 5 3 =
      { stdout := printResourceTypes ["Patient"] ::
          [mkIteration ["Patient"] 150000 1 0, mkIteration ["Patient"] 150000 1 60000,
           mkIteration ["Patient"] 150000 1 120000].map Iteration.url
      , effects := [Effect.queueResume]
      , error := none
      , completed := true } ∧
    (mainRun true false true ["Patient"] (some 0) 150000 1 5 3).effects =
      Effect.queueResume ::
        [mkIteration ["Patient"] 150000 1 0, mkIteration ["Patient"] 150000 1 60000,
         mkIteration ["Patient"] 150000 1 120000].flatMap (fun it =>
          [Effect.createAsyncJob it.url,
           Effect.enqueueReindexJob ["Patient"] it.searchRequest 5])) :=
  ⟨by rfl,
    C3_dry_run_amended ["Patient"] (some 0) 150000 1 5 3
      [mkIteration ["Patient"] 150000 1 0, mkIteration ["Patient"] 150000 1 60000,
       mkIteration ["Patient"] 150000 1 120000] (by rfl)⟩

/-- C4 counterexample: with `stepMinutes = 0` (not a positive integer) and a
non-trivial horizon, the run does not fail with `InvalidArgument`: no error is
raised at all, the partition loop is still running after the fuel bound
(`completed = false`), and the `queue.resume()` lifecycle operation has
already been performed. -/
theorem C4_counterexample :
    (mainRun true false false ["Patient"] (some 0) 60000 0 5 5).completed = false ∧
    (mainRun true false false ["Patient"] (some 0) 60000 0 5 5).error = none ∧
    Effect.queueResume ∈
      (mainRun true false false ["Patient"] (some 0) 60000 0 5 5).effects := by
  decide

/-- C4 amended: the code performs no validation of `stepMinutes` (in the
source it is the hard-coded positive constant `24 * 60 * 30`); for any
non-positive `stepMinutes` and `overallStart < overallEnd` the partition loop
never terminates — every fuel bound is exhausted with the loop still running
and no `InvalidArgument` (or any other) error is ever raised — and the
`queue.resume()` lifecycle operation has already occurred before
partitioning. -/
theorem C4_no_step_validation_amended (rts : List String)
    (beforeDate intervalMinutes s : Int)
    (hstep : intervalMinutes ≤ 0) (hs : s < beforeDate) :
    (∀ (fuel : Nat) (p : Option Int), ∃ its,
      mainLoop rts beforeDate intervalMinutes fuel (some s) p = .error its) ∧
    (∀ (doAddJobs : Bool) (maxResourceVersion fuel : Nat),
      (mainRun true false doAddJobs rts (some s) beforeDate intervalMinutes
          maxResourceVersion fuel).completed = false ∧
      (mainRun true false doAddJobs rts (some s) beforeDate intervalMinutes
          maxResourceVersion fuel).error = none ∧
      Effect.queueResume ∈
        (mainRun true false doAddJobs rts (some s) beforeDate intervalMinutes
            maxResourceVersion fuel).effects) := by
  have key : ∀ (fuel : Nat) (t : Int), t < beforeDate → ∀ p, ∃ its,
      mainLoop rts beforeDate intervalMinutes fuel (some t) p = .error its := by
    intro fuel
    induction fuel with
    | zero => intro t ht p; exact ⟨[], rfl⟩
    | succ n ih =>
      intro t ht p
      have hcond : computeEndDate beforeDate intervalMinutes t < beforeDate := by
        simp only [computeEndDate, addUTCMinutes, msPerMinute]
        omega
      obtain ⟨its, hits⟩ := ih (computeEndDate beforeDate intervalMinutes t) hcond
        (some (computeEndDate beforeDate intervalMinutes t))
      exact ⟨_, by rw [mainLoop_some_succ, if_pos hcond, hits]⟩
  refine ⟨fun fuel p => key fuel s hs p, ?_⟩
  intro doAddJobs maxResourceVersion fuel
  obtain ⟨its, hits⟩ := key fuel s hs none
  refine ⟨?_, ?_, ?_⟩ <;> simp [mainRun, hits]

/-- Witness for the amended C4 at `stepMinutes = 0`, `overallStart = 0`,
`overallEnd = 60000` ms. -/
theorem C4_no_step_validation_amended_witness :
    (0 : Int) ≤ 0 ∧ (0 : Int) < 60000 ∧
    ((∀ (fuel : Nat) (p : Option Int), ∃ its,
      mainLoop ["Patient"] 60000 0 fuel (some 0) p = .error its) ∧
    (∀ (doAddJobs : Bool) (maxResourceVersion fuel : Nat),
      (mainRun true false doAddJobs ["Patient"] (some 0) 60000 0
          maxResourceVersion fuel).completed = false ∧
      (mainRun true false doAddJobs ["Patient"] (some 0) 60000 0
          maxResourceVersion fuel).error = none ∧
      Effect.queueResume ∈
        (mainRun true false doAddJobs ["Patient"] (some 0) 60000 0
            maxResourceVersion fuel).effects)) :=
  ⟨by decide, by decide,
    C4_no_step_validation_amended ["Patient"] 60000 0 0 (by decide) (by decide)⟩

/-- C5 counterexample: when the named queue is missing from the registry, the
error is caught by the top-level `.catch` handler, which only logs it, so the
process exit status is 0 — not non-zero as the claim states (the abort-before-
mutation and surfacing parts do hold: no effects, error printed to stderr). -/
theorem C5_counterexample :
    (runProcess false false false ["Patient"] (some 0) 150000 1 5 3).map
      ProcessResult.exitCode = some 0 ∧
    (mainRun false false false ["Patient"] (some 0) 150000 1 5 3).effects = [] ∧
    (runProcess false false false ["Patient"] (some 0) 150000 1 5 3).map
      ProcessResult.stderr = some ["Could not find queue", "\x7b\x7d"] := by
  decide

/-- C5 amended: when the queue is not found the run aborts before performing
any queue mutation or job submission and the error is surfaced to the operator
on stderr, but the process exit status is 0, not non-zero: the `.catch`
handler logs the error without setting `process.exitCode` or rethrowing. -/
theorem C5_queue_not_found_amended (doObliterate doAddJobs : Bool)
    (rts : List String) (startDate0 : Option Int) (beforeDate intervalMinutes : Int)
    (maxResourceVersion fuel : Nat) :
    (mainRun false doObliterate doAddJobs rts startDate0 beforeDate intervalMinutes
        maxResourceVersion fuel).effects = [] ∧
    (mainRun false doObliterate doAddJobs rts startDate0 beforeDate intervalMinutes
        maxResourceVersion fuel).error = some "Could not find queue" ∧
    runProcess false doObliterate doAddJobs rts startDate0 beforeDate intervalMinutes
        maxResourceVersion fuel =
      some { exitCode := 0, stdout := [printResourceTypes rts]
           , stderr := ["Could not find queue", "\x7b\x7d"] } := by
  refine ⟨?_, ?_, ?_⟩ <;> simp [mainRun, runProcess, errJson]

end Reindex

namespace Submitter

/-- States of an Async Job. -/
inductive AsyncJobStatus where
  | ACCEPTED
  | IN_PROGRESS
  | COMPLETED
  | FAILED
  | CANCELLED
deriving DecidableEq, Repr

/-- An Async Job record: id, lifecycle status and the request URL it was
created with. -/
structure AsyncJob where
  id : Nat
  status : AsyncJobStatus
  requestUrl : String
deriving DecidableEq, Repr

/-- A Job Descriptor on the queue, referencing its owning Async Job by id. -/
structure JobDescriptor where
  asyncJobId : Nat
  searchRequest : Reindex.SearchRequest
deriving DecidableEq, Repr

/-- Job store and queue contents visible to the submitter. -/
structure SubmitterState where
  jobs : List AsyncJob
  queue : List JobDescriptor
deriving DecidableEq, Repr

/-- Modelled from the spec: the bodies of `AsyncJobExecutor.init`/`.run`
(`fhir/operations/utils/asyncjobexecutor.ts`) and the enqueue inside
`addReindexJob` (`workers/reindex.ts`) are not among the analysed sources;
per the spec's submitter contract, the Async Job is created in state
`ACCEPTED` with the request URL, then the Job Descriptor referencing its id
is enqueued; if the enqueue fails, the Async Job is marked `FAILED` as a
compensating action and the failure is recovered, not surfaced as fatal.
The returned `Bool` is whether a fatal (unrecovered) error escapes. -/
def submitOne (st : SubmitterState) (url : String) (srq : Reindex.SearchRequest)
    (enqueueFails : Bool) : SubmitterState × Bool :=
  let id := st.jobs.length
  let job : AsyncJob := { id := id, status := AsyncJobStatus.ACCEPTED, requestUrl := url }
  if enqueueFails then
    ({ st with jobs := st.jobs ++ [{ job with status := AsyncJobStatus.FAILED }] }, false)
  else
    ({ jobs := st.jobs ++ [job]
     , queue := st.queue ++ [{ asyncJobId := id, searchRequest := srq }] }, false)

/-- The pairing invariant of the spec: every Async Job still in `ACCEPTED`
has a queue entry referencing it. -/
def pairing (st : SubmitterState) : Prop :=
  ∀ j ∈ st.jobs, j.status = AsyncJobStatus.ACCEPTED →
    ∃ d ∈ st.queue, d.asyncJobId = j.id

/-- C2: if Async Job creation succeeds but the enqueue fails, the submitter
marks the job `FAILED` (compensation), never leaves it `ACCEPTED` without a
queue entry — the pairing invariant is preserved — and the failure is not
surfaced as fatal. -/
theorem C2_compensating_failure (st : SubmitterState) (url : String)
    (srq : Reindex.SearchRequest) (hp : pairing st) :
    (submitOne st url srq true).1.jobs.getLast? =
      some { id := st.jobs.length, status := AsyncJobStatus.FAILED, requestUrl := url } ∧
    pairing (submitOne st url srq true).1 ∧
    (submitOne st url srq true).2 = false := by
  refine ⟨by simp [submitOne], ?_, by simp [submitOne]⟩
  intro j hj hacc
  have hj' : j ∈ st.jobs ++
      [{ id := st.jobs.length, status := AsyncJobStatus.FAILED, requestUrl := url }] := hj
  rcases List.mem_append.mp hj' with hmem | hmem
  · exact hp j hmem hacc
  · obtain rfl := List.mem_singleton.mp hmem
    exact absurd hacc (by simp)

/-- Witness for C2 from the empty submitter state. -/
theorem C2_compensating_failure_witness :
    pairing { jobs := [], queue := [] } ∧
    ((submitOne { jobs := [], queue := [] } "Patient?"
        { resourceType := some "Patient", filters := [] } true).1.jobs.getLast? =
      some { id := 0, status := AsyncJobStatus.FAILED, requestUrl := "Patient?" } ∧
    pairing (submitOne { jobs := [], queue := [] } "Patient?"
        { resourceType := some "Patient", filters := [] } true).1 ∧
    (submitOne { jobs := [], queue := [] } "Patient?"
        { resourceType := some "Patient", filters := [] } true).2 = false) :=
  ⟨fun j hj _ => absurd hj (by simp),
    C2_compensating_failure { jobs := [], queue := [] } "Patient?"
      { resourceType := some "Patient", filters := [] }
      (fun j hj _ => absurd hj (by simp))⟩

end Submitter

namespace Seed

/-- A `User` resource as created by `createSuperAdmin`
(`packages/server/src/seed.ts`). -/
structure User where
  firstName : String
  lastName : String
  email : String
  passwordHash : String
deriving DecidableEq, Repr

/-- A `Project` resource as created by `createSuperAdmin`. -/
structure Project where
  name : String
  ownerId : Nat
  superAdmin : Bool
  strictMode : Bool
deriving DecidableEq, Repr

/-- A `Practitioner` resource as created by `createSuperAdmin`. -/
structure Practitioner where
  projectId : Nat
  givenName : String
  familyName : String
  email : String
deriving DecidableEq, Repr

/-- A `ProjectMembership` resource as created by `createSuperAdmin`. -/
structure ProjectMembership where
  projectId : Nat
  userId : Nat
  practitionerId : Nat
  admin : Bool
deriving DecidableEq, Repr

/-- The repository state `seedDatabase` reads and writes: the stored
resources of each of the four types it touches, plus the name of the
pre-existing FHIR R4 project record that `updateResource` overwrites. -/
structure SeedDb where
  users : List User
  projects : List Project
  r4ProjectName : String
  practitioners : List Practitioner
  projectMemberships : List ProjectMembership
deriving DecidableEq, Repr

/-- Model of `isSeeded`, i.e. `searchOne` on the User resource type: the
first stored `User` if any (`seed.ts` lines 117-119). -/
def isSeeded (db : SeedDb) : Option User :=
  db.users.head?

/-- Model of `createSuperAdmin` (`seed.ts` lines 59-109): creates the super-admin
`User` (with the bcrypt hash of `medplum_admin`), the `Super Admin`
`Project` owned by it, renames the R4 project to `FHIR R4`, and creates the
admin `Practitioner` and `ProjectMembership`.  `bcrypt` is the external
`bcryptHashPassword` collaborator. -/
def createSuperAdmin (bcrypt : String → String) (db : SeedDb) : SeedDb :=
  let superAdmin : User :=
    { firstName := "Medplum", lastName := "Admin", email := "admin@example.com"
    , passwordHash := bcrypt "medplum_admin" }
  let superAdminId := db.users.length
  let superAdminProject : Project :=
    { name := "Super Admin", ownerId := superAdminId, superAdmin := true, strictMode := true }
  let projectId := db.projects.length
  let practitioner : Practitioner :=
    { projectId := projectId, givenName := "Medplum", familyName := "Admin"
    , email := "admin@example.com" }
  let practitionerId := db.practitioners.length
  let membership : ProjectMembership :=
    { projectId := projectId, userId := superAdminId, practitionerId := practitionerId
    , admin := true }
  { users := db.users ++ [superAdmin]
  , projects := db.projects ++ [superAdminProject]
  , r4ProjectName := "FHIR R4"
  , practitioners := db.practitioners ++ [practitioner]
  , projectMemberships := db.projectMemberships ++ [membership] }

/-- Model of `seedDatabase` (`seed.ts` lines 29-56): if `isSeeded` finds a `User` it
logs and returns immediately; otherwise, in one transaction, it runs
`createSuperAdmin` and the three rebuild passes.  The rebuild passes
(`rebuildR4StructureDefinitions`, `rebuildR4ValueSets`,
`rebuildR4SearchParameters`, from `./seeds/*`) are external collaborators,
passed in as state transformers. -/
def seedDatabase (rebuildSD rebuildVS rebuildSP : SeedDb → SeedDb)
    (bcrypt : String → String) (db : SeedDb) : SeedDb :=
  if (isSeeded db).isSome then db
  else rebuildSP (rebuildVS (rebuildSD (createSuperAdmin bcrypt db)))

/-- C10: `seedDatabase` is idempotent at its entry point: on a database that
already holds at least one `User`, it performs no writes and returns the
state unchanged; consequently — provided the external rebuild passes never
delete the seeded users, which is all the entry-point guard relies on —
running it a second time leaves the database unchanged. -/
theorem C10_seed_idempotent (rebuildSD rebuildVS rebuildSP : SeedDb → SeedDb)
    (bcrypt : String → String) (db : SeedDb)
    (hpreserve : ∀ d : SeedDb, (isSeeded d).isSome →
      (isSeeded (rebuildSP (rebuildVS (rebuildSD d)))).isSome) :
    ((isSeeded db).isSome → seedDatabase rebuildSD rebuildVS rebuildSP bcrypt db = db) ∧
    seedDatabase rebuildSD rebuildVS rebuildSP bcrypt
        (seedDatabase rebuildSD rebuildVS rebuildSP bcrypt db) =
      seedDatabase rebuildSD rebuildVS rebuildSP bcrypt db := by
  have hseed : ∀ d : SeedDb, (isSeeded d).isSome →
      seedDatabase rebuildSD rebuildVS rebuildSP bcrypt d = d := by
    intro d hd
    simp [seedDatabase, hd]
  refine ⟨hseed db, ?_⟩
  by_cases h : (isSeeded db).isSome
  · rw [hseed db h, hseed db h]
  · have h1 : seedDatabase rebuildSD rebuildVS rebuildSP bcrypt db =
        rebuildSP (rebuildVS (rebuildSD (createSuperAdmin bcrypt db))) := by
      simp [seedDatabase, h]
    have h2 : (isSeeded (createSuperAdmin bcrypt db)).isSome := by
      simp [isSeeded, createSuperAdmin]
    exact h1 ▸ hseed _ (hpreserve _ h2)

/-- Witness for C10 on a one-user database with identity collaborators. -/
theorem C10_seed_idempotent_witness :
    (∀ d : Seed.SeedDb, (Seed.isSeeded d).isSome → (Seed.isSeeded (id (id (id d)))).isSome) ∧
    (((Seed.isSeeded
        { users := [{ firstName := "A", lastName := "B", email := "a@b", passwordHash := "h" }]
        , projects := [], r4ProjectName := "r4", practitioners := []
        , projectMemberships := [] }).isSome →
      Seed.seedDatabase id id id id
        { users := [{ firstName := "A", lastName := "B", email := "a@b", passwordHash := "h" }]
        , projects := [], r4ProjectName := "r4", practitioners := []
        , projectMemberships := [] } =
        { users := [{ firstName := "A", lastName := "B", email := "a@b", passwordHash := "h" }]
        , projects := [], r4ProjectName := "r4", practitioners := []
        , projectMemberships := [] }) ∧
    Seed.seedDatabase id id id id
        (Seed.seedDatabase id id id id
          { users := [{ firstName := "A", lastName := "B", email := "a@b", passwordHash := "h" }]
          , projects := [], r4ProjectName := "r4", practitioners := []
          , projectMemberships := [] }) =
      Seed.seedDatabase id id id id
        { users := [{ firstName := "A", lastName := "B", email := "a@b", passwordHash := "h" }]
        , projects := [], r4ProjectName := "r4", practitioners := []
        , projectMemberships := [] }) :=
  ⟨fun _ hd => hd,
    C10_seed_idempotent id id id id
      { users := [{ firstName := "A", lastName := "B", email := "a@b", passwordHash := "h" }]
      , projects := [], r4ProjectName := "r4", practitioners := []
      , projectMemberships := [] }
      (fun _ hd => hd)⟩

end Seed
